import Mathlib

/-!
Shallow embedding of the trace-rs ray tracer core (src/surface.rs, src/bvh.rs,
src/main.rs).  f32 values are modelled as exact rationals (ℚ): every concrete
input used below is a small dyadic for which the corresponding f32 computation
is exact.  External library functions that involve irrational operations
(f32 sqrt, glam normalize) are passed in as explicit function parameters.
ℚ division is total with x / 0 = 0; IEEE signed-infinity semantics of the
slab test for rays with a zero direction component are outside this model,
and every concrete ray used below has all direction components nonzero.
-/

namespace TraceRS

/-- glam::Vec3A with f32 components, modelled over ℚ. -/
structure Vec3 where
  x : ℚ
  y : ℚ
  z : ℚ
deriving DecidableEq, Repr

instance : Zero Vec3 := ⟨⟨0, 0, 0⟩⟩

instance : Add Vec3 := ⟨fun a b => ⟨a.x + b.x, a.y + b.y, a.z + b.z⟩⟩

instance : Sub Vec3 := ⟨fun a b => ⟨a.x - b.x, a.y - b.y, a.z - b.z⟩⟩

/-- Componentwise product, as glam's Mul<Vec3A> for Vec3A. -/
instance : Mul Vec3 := ⟨fun a b => ⟨a.x * b.x, a.y * b.y, a.z * b.z⟩⟩

/-- Componentwise quotient, as glam's Div<Vec3A> for Vec3A. -/
instance : Div Vec3 := ⟨fun a b => ⟨a.x / b.x, a.y / b.y, a.z / b.z⟩⟩

/-- Scalar times vector (f32 * Vec3A). -/
instance : HMul ℚ Vec3 Vec3 := ⟨fun q v => ⟨q * v.x, q * v.y, q * v.z⟩⟩

/-- Vector times scalar (Vec3A * f32). -/
instance : HMul Vec3 ℚ Vec3 := ⟨fun v q => ⟨v.x * q, v.y * q, v.z * q⟩⟩

def Vec3.dot (a b : Vec3) : ℚ := a.x * b.x + a.y * b.y + a.z * b.z

def Vec3.cross (a b : Vec3) : Vec3 :=
  ⟨a.y * b.z - a.z * b.y, a.z * b.x - a.x * b.z, a.x * b.y - a.y * b.x⟩

def Vec3.length_squared (v : Vec3) : ℚ := v.dot v

def Vec3.splat (q : ℚ) : Vec3 := ⟨q, q, q⟩

/-- Componentwise minimum (glam Vec3A::min). -/
def Vec3.min (a b : Vec3) : Vec3 :=
  ⟨Min.min a.x b.x, Min.min a.y b.y, Min.min a.z b.z⟩

/-- Componentwise maximum (glam Vec3A::max). -/
def Vec3.max (a b : Vec3) : Vec3 :=
  ⟨Max.max a.x b.x, Max.max a.y b.y, Max.max a.z b.z⟩

def Vec3.max_element (v : Vec3) : ℚ := Max.max v.x (Max.max v.y v.z)

def Vec3.min_element (v : Vec3) : ℚ := Min.min v.x (Min.min v.y v.z)

/-- Indexing v[i] for i in 0..=2 (glam panics above 2; never exercised here). -/
def Vec3.comp (v : Vec3) : ℕ → ℚ
  | 0 => v.x
  | 1 => v.y
  | _ => v.z

/-- Componentwise ≤, used to phrase when a box contains another point. -/
def Vec3.le (a b : Vec3) : Prop := a.x ≤ b.x ∧ a.y ≤ b.y ∧ a.z ≤ b.z

instance (a b : Vec3) : Decidable (Vec3.le a b) := by
  unfold Vec3.le; infer_instance

/-- Ray { origin, direction } from src/main.rs; direction not normalized. -/
structure Ray where
  origin : Vec3
  direction : Vec3
deriving DecidableEq, Repr

/-- AABB { min, max } from src/surface.rs. -/
structure AABB where
  min : Vec3
  max : Vec3
deriving DecidableEq, Repr

namespace AABB

/-- AABB::ray_hit — the slab test, translated line by line. -/
def ray_hit (b : AABB) (ray : Ray) : Bool :=
  let ta := (b.min - ray.origin) / ray.direction
  let tb := (b.max - ray.origin) / ray.direction
  let min_t := Vec3.min ta tb
  let max_t := Vec3.max ta tb
  decide (min_t.max_element < max_t.min_element)

/-- AABB::midpoint. -/
def midpoint (b : AABB) : Vec3 := (b.min + b.max) * (1/2 : ℚ)

/-- AABB::zero — a degenerate box at the origin. -/
def zero : AABB := ⟨0, 0⟩

/-- AABB::union_mut; the in-place update is modelled as returning the new box. -/
def union_mut (a other : AABB) : AABB :=
  ⟨a.min.min other.min, a.max.max other.max⟩

/-- AABB::max_axis.  The source initializes the running maximum with
the expression -NEG_INFINITY, which evaluates to PLUS infinity; that value is
modelled by ⊤ in WithTop ℚ.  Each loop iteration tests diff[i] > max. -/
def max_axis (b : AABB) : ℕ :=
  let diff := b.max - b.min
  (([0, 1, 2] : List ℕ).foldl
    (fun acc i =>
      if ((diff.comp i : ℚ) : WithTop ℚ) > acc.1 then (((diff.comp i : ℚ) : WithTop ℚ), i)
      else acc)
    ((⊤ : WithTop ℚ), 0)).2

end AABB

/-- Material from src/surface.rs.  The shininess field is an f32 used only as
the exponent of powf; every material in the program stores the integer value
20.0, and IEEE powf at an integer-valued exponent computes the exact signed
power, so shininess is modelled as a natural exponent (see powfNat). -/
structure Material where
  k_ambient : Vec3
  k_diffuse : Vec3
  k_specular : Vec3
  k_reflective : Vec3
  shininess : ℕ
deriving DecidableEq, Repr

/-- Sphere { origin, radius, material }; the &Material borrow is a value. -/
structure Sphere where
  origin : Vec3
  radius : ℚ
  material : Material
deriving DecidableEq, Repr

/-- Triangle { v0, v1, v2, normal, material }.  The precomputed normal is only
read by Geometry::hit, never by ray_intersect. -/
structure Triangle where
  v0 : Vec3
  v1 : Vec3
  v2 : Vec3
  normal : Vec3
  material : Material
deriving DecidableEq, Repr

/-- Sphere's quadratic a coefficient: ray.direction.length_squared(). -/
def Sphere.qa (ray : Ray) : ℚ := ray.direction.length_squared

/-- Sphere's half_b coefficient: oc.dot(ray.direction). -/
def Sphere.half_b (s : Sphere) (ray : Ray) : ℚ :=
  (ray.origin - s.origin).dot ray.direction

/-- Sphere's c coefficient: oc.length_squared() - radius * radius. -/
def Sphere.qc (s : Sphere) (ray : Ray) : ℚ :=
  (ray.origin - s.origin).length_squared - s.radius * s.radius

/-- The discriminant half_b * half_b - a * c of Sphere::ray_intersect. -/
def Sphere.discriminant (s : Sphere) (ray : Ray) : ℚ :=
  s.half_b ray * s.half_b ray - Sphere.qa ray * s.qc ray

/-- root_one = (-half_b - discriminant.sqrt()) / a; sqrtf models f32 sqrt. -/
def Sphere.root_one (sqrtf : ℚ → ℚ) (s : Sphere) (ray : Ray) : ℚ :=
  (-s.half_b ray - sqrtf (s.discriminant ray)) / Sphere.qa ray

/-- root_two = (-half_b + discriminant.sqrt()) / a. -/
def Sphere.root_two (sqrtf : ℚ → ℚ) (s : Sphere) (ray : Ray) : ℚ :=
  (-s.half_b ray + sqrtf (s.discriminant ray)) / Sphere.qa ray

/-- Sphere::ray_intersect.  The source returns Some((root, self)); the self
reference is reattached at the CanHit level, so only the root is returned. -/
def Sphere.ray_intersect (sqrtf : ℚ → ℚ) (s : Sphere) (ray : Ray) : Option ℚ :=
  if s.discriminant ray < 0 then none
  else
    if s.root_one sqrtf ray > 1 then some (s.root_one sqrtf ray)
    else if s.root_two sqrtf ray > 1 then some (s.root_two sqrtf ray)
    else none

/-- Sphere::aabb. -/
def Sphere.aabb (s : Sphere) : AABB :=
  ⟨s.origin - Vec3.splat s.radius, s.origin + Vec3.splat s.radius⟩

/-- EPSILON = 1e-6 from src/surface.rs. -/
def EPSILON : ℚ := 1 / 1000000

/-- Triangle::ray_intersect — the Moller-Trumbore test, translated line by
line (single-sided: det < EPSILON rejects). -/
def Triangle.ray_intersect (t : Triangle) (ray : Ray) : Option ℚ :=
  let v0v1 := t.v1 - t.v0
  let v0v2 := t.v2 - t.v0
  let plane_vec := v0v1.cross v0v2
  let det := -(ray.direction.dot plane_vec)
  if det < EPSILON then none
  else
    let inv_det := 1 / det
    let b := ray.origin - t.v0
    let det_u := -(ray.direction.dot (b.cross v0v2))
    let u := inv_det * det_u
    if u < 0 ∨ u > 1 then none
    else
      let det_v := -(ray.direction.dot (v0v1.cross b))
      let v := inv_det * det_v
      if v < 0 ∨ u + v > 1 then none
      else
        let det_t := b.dot plane_vec
        let tt := inv_det * det_t
        if tt < EPSILON then none else some tt

/-- Triangle::aabb. -/
def Triangle.aabb (t : Triangle) : AABB :=
  ⟨t.v0.min (t.v1.min t.v2), t.v0.max (t.v1.max t.v2)⟩

/-- The closed primitive union CanHit from src/surface.rs. -/
inductive CanHit where
  | sphere (s : Sphere)
  | triangle (t : Triangle)
deriving DecidableEq, Repr

/-- CanHit::ray_intersect.  The &dyn Geometry returned by the source is the
intersected primitive itself; it is modelled as the CanHit value. -/
def CanHit.ray_intersect (sqrtf : ℚ → ℚ) (h : CanHit) (ray : Ray) :
    Option (ℚ × CanHit) :=
  match h with
  | .sphere s => (s.ray_intersect sqrtf ray).map fun t => (t, h)
  | .triangle t => (t.ray_intersect ray).map fun tt => (tt, h)

/-- CanHit::hits_any — defined as ray_intersect(ray).is_some(). -/
def CanHit.hits_any (sqrtf : ℚ → ℚ) (h : CanHit) (ray : Ray) : Bool :=
  (h.ray_intersect sqrtf ray).isSome

/-- CanHit::aabb. -/
def CanHit.aabb : CanHit → AABB
  | .sphere s => s.aabb
  | .triangle t => t.aabb

/-- Insert into a list sorted by le — helper for sortBy. -/
def insertBy {α : Type} (le : α → α → Bool) (a : α) : List α → List α
  | [] => [a]
  | b :: l => if le a b then a :: b :: l else b :: insertBy le a l

/-- Model of slice::sort_unstable_by: a comparison sort by the given order.
The source leaves the order of equal keys unspecified; every key set used in
a concrete input below is duplicate-free, so the result is the same ordered
permutation the source produces. -/
def sortBy {α : Type} (le : α → α → Bool) : List α → List α
  | [] => []
  | a :: l => insertBy le a (sortBy le l)

/-- BVH node.  The source stores Internal and Leaf nodes in flat arenas with
ChildPointer indices; children are always pushed before their parent, so the
arena plus root pointer encode exactly this tree and are modelled by it. -/
inductive BVHNode where
  | leaf (beg length : ℕ) (bounding : AABB)
  | internal (left right : BVHNode) (bounding : AABB)
deriving DecidableEq, Repr

/-- Sort key used by BVH::new_recur: a.aabb().midpoint()[axis]. -/
def midKey (axis : ℕ) (a : CanHit) : ℚ := a.aabb.midpoint.comp axis

theorem length_insertBy {α : Type} (le : α → α → Bool) (a : α) (l : List α) :
    (insertBy le a l).length = l.length + 1 := by
  induction l with
  | nil => rfl
  | cons b l ih =>
    simp only [insertBy]
    split <;> simp [ih]

theorem length_sortBy {α : Type} (le : α → α → Bool) (l : List α) :
    (sortBy le l).length = l.length := by
  induction l with
  | nil => rfl
  | cons a l ih => simp [sortBy, length_insertBy, ih]

/-- BVH::new_recur.  Returns the subtree together with the permuted contents
of the slice it was given (the source permutes the slice in place).
surface_index is the offset of the slice in the full array. -/
def BVH.new_recur (surfaces : List CanHit) (surface_index : ℕ) :
    BVHNode × List CanHit :=
  let bounding := surfaces.foldl (fun b s => b.union_mut s.aabb) AABB.zero
  if _h : surfaces.length ≤ 2 then
    (BVHNode.leaf surface_index surfaces.length bounding, surfaces)
  else
    let axis := bounding.max_axis
    let sorted := sortBy (fun a b => decide (midKey axis a ≤ midKey axis b)) surfaces
    let l := sorted.take (sorted.length / 2)
    let r := sorted.drop (sorted.length / 2)
    let ln := BVH.new_recur l surface_index
    let rn := BVH.new_recur r (surface_index + l.length)
    (BVHNode.internal ln.1 rn.1 bounding, ln.2 ++ rn.2)
termination_by surfaces.length
decreasing_by
  · simp only [List.length_take, List.length_drop, length_sortBy]
    omega
  · simp only [List.length_take, List.length_drop, length_sortBy]
    omega

/-- BVH { root, surfaces }: the tree and the permuted primitive array. -/
structure BVH where
  root : BVHNode
  surfaces : List CanHit
deriving DecidableEq, Repr

/-- BVH::new.  The source returns a BVH when new_recur yields an Internal
root pointer and otherwise reaches panic!("bvh construction failed"); the
panic (the only non-returning path) is modelled as none. -/
def BVH.new (surfaces : List CanHit) : Option BVH :=
  match BVH.new_recur surfaces 0 with
  | (BVHNode.internal l r b, perm) => some ⟨BVHNode.internal l r b, perm⟩
  | _ => none

/-- The running-minimum update of the loop in BVH::ray_intersect_walk's Leaf
arm: keep the incumbent unless the new hit is strictly closer. -/
def keepMin (sqrtf : ℚ → ℚ) (ray : Ray) (best : Option (ℚ × CanHit))
    (surf : CanHit) : Option (ℚ × CanHit) :=
  match surf.ray_intersect sqrtf ray with
  | some (t, geom) =>
    match best with
    | some (prior_t, prior_g) =>
      if t < prior_t then some (t, geom) else some (prior_t, prior_g)
    | none => some (t, geom)
  | none => best

/-- BVH::ray_intersect_walk.  At an Internal node the source returns
walk(left).or_else(walk(right)); at a Leaf it scans the slice
surfaces[begin..begin+length] keeping the minimum-t hit. -/
def BVH.ray_intersect_walk (sqrtf : ℚ → ℚ) (surfaces : List CanHit)
    (ray : Ray) : BVHNode → Option (ℚ × CanHit)
  | BVHNode.internal left right bounding =>
    if !bounding.ray_hit ray then none
    else
      match BVH.ray_intersect_walk sqrtf surfaces ray left with
      | some hit => some hit
      | none => BVH.ray_intersect_walk sqrtf surfaces ray right
  | BVHNode.leaf beg length bounding =>
    if !bounding.ray_hit ray then none
    else ((surfaces.drop beg).take length).foldl (keepMin sqrtf ray) none

/-- BVH::ray_intersect — walk from the root. -/
def BVH.ray_intersect (sqrtf : ℚ → ℚ) (b : BVH) (ray : Ray) :
    Option (ℚ × CanHit) :=
  BVH.ray_intersect_walk sqrtf b.surfaces ray b.root

/-- BVH::hits_any_walk — same traversal shape, short-circuiting on the first
primitive that reports a hit. -/
def BVH.hits_any_walk (sqrtf : ℚ → ℚ) (surfaces : List CanHit) (ray : Ray) :
    BVHNode → Bool
  | BVHNode.internal left right bounding =>
    if !bounding.ray_hit ray then false
    else
      BVH.hits_any_walk sqrtf surfaces ray left
        || BVH.hits_any_walk sqrtf surfaces ray right
  | BVHNode.leaf beg length bounding =>
    if !bounding.ray_hit ray then false
    else ((surfaces.drop beg).take length).any fun surf => surf.hits_any sqrtf ray

/-- BVH::hits_any — walk from the root. -/
def BVH.hits_any (sqrtf : ℚ → ℚ) (b : BVH) (ray : Ray) : Bool :=
  BVH.hits_any_walk sqrtf b.surfaces ray b.root

/-- Modelled from the spec's words (section 8): the brute-force linear scan
over every primitive choosing the minimum-t hit, the reference that
ray_intersect is claimed to coincide with. -/
def bruteForceIntersect (sqrtf : ℚ → ℚ) (surfaces : List CanHit) (ray : Ray) :
    Option (ℚ × CanHit) :=
  surfaces.foldl (keepMin sqrtf ray) none

/-- The (begin, count) index ranges of a tree's leaves, left to right. -/
def BVHNode.leafRanges : BVHNode → List (ℕ × ℕ)
  | .leaf beg length _ => [(beg, length)]
  | .internal left right _ => left.leafRanges ++ right.leafRanges

/-- chainFrom s rgs e: the ranges tile [s, e) consecutively — each range
starts exactly where the previous one ended. -/
def chainFrom : ℕ → List (ℕ × ℕ) → ℕ → Bool
  | s, [], e => s == e
  | s, (beg, length) :: rest, e => beg == s && chainFrom (s + length) rest e

/-- The indices covered by a list of (begin, count) ranges, in order. -/
def rangesElems (rgs : List (ℕ × ℕ)) : List ℕ :=
  rgs.foldr (fun r acc => List.range' r.1 r.2 ++ acc) []

/-- Light from src/main.rs. -/
structure Light where
  origin : Vec3
  diffuse_color : Vec3
  specular_color : Vec3
deriving DecidableEq, Repr

/-- Hit { at, surface_normal } from src/surface.rs; the field named at in the
source is called pos here because at is reserved in Lean. -/
structure HitRec where
  pos : Vec3
  surface_normal : Vec3
deriving DecidableEq, Repr

/-- A &dyn Geometry value as the integrator consumes it: material() and
hit(ray, t). -/
structure Geom where
  material : Material
  hit : Ray → ℚ → HitRec

/-- The integrator's view of Scene from src/main.rs.  Scene::best_hit and
Scene::hits_any forward directly to BVH::ray_intersect and BVH::hits_any, so
they are modelled as the scene's query functions. -/
structure Scene where
  best_hit : Ray → Option (ℚ × Geom)
  hits_any : Ray → Bool
  lights : List Light
  global_light : Vec3
  camera : Vec3

/-- Model of f32::powf at an integer-valued exponent, where IEEE powf
computes the exact signed power; every Material::shininess stored by the
program is the integer 20.0. -/
def powfNat (x : ℚ) (n : ℕ) : ℚ := x ^ n

/-- One iteration of the per-light loop of Scene::ray_color: unconditionally
add the reflective term; when the surface faces the light (l_v.dot(n) > 0)
and the shadow ray reports no occluder, also add the diffuse term and the
specular term k_specular * v.dot(lr).powf(shininess) * specular_color, with
l_v = normalize(light.origin - p) and lr = 2*(n.dot(l_v))*n - l_v.
reflColor is the recursive ray_color of the reflected ray, which does not
depend on the light and is passed in (ℚ addition is associative, so summing
the three += updates in one expression is exact). -/
def lightTerm (s : Scene) (mat : Material) (nrm : Vec3 → Vec3)
    (p n v reflColor : Vec3) (light : Light) : Vec3 :=
  if 0 < (nrm (light.origin - p)).dot n
      ∧ s.hits_any ⟨p, nrm (light.origin - p)⟩ = false then
    mat.k_reflective * reflColor
      + mat.k_diffuse * ((nrm (light.origin - p)).dot n) * light.diffuse_color
      + mat.k_specular
          * powfNat
              (v.dot (((2 : ℚ) * (n.dot (nrm (light.origin - p)))) * n
                - nrm (light.origin - p)))
              mat.shininess
        * light.specular_color
  else mat.k_reflective * reflColor

/-- Scene::ray_color.  depth <= 0 returns the zero colour before any query;
otherwise the nearest hit is shaded.  nrm models glam's normalize (f32 sqrt).
v and the reflected ray are light-independent, so the source's in-loop
recomputation is hoisted; the recursive colour of the reflected ray is
computed once and added per light exactly as the loop does. -/
def Scene.ray_color (nrm : Vec3 → Vec3) (s : Scene) (ray : Ray) :
    ℕ → Vec3
  | 0 => 0
  | depth + 1 =>
    match s.best_hit ray with
    | none => 0
    | some (t, surface) =>
      let color := (0 : Vec3) + s.global_light * surface.material.k_ambient
      let h := surface.hit ray t
      let p := h.pos
      let n := h.surface_normal
      let v := nrm (s.camera - p)
      let view_reflection := (2 : ℚ) * (n.dot v * n) - v
      let reflColor := s.ray_color nrm ⟨p, view_reflection⟩ depth
      s.lights.foldl
        (fun c light => c + lightTerm s surface.material nrm p n v reflColor light)
        color

/-- Modelled from the spec's words (section 4.5): as lightTerm, but with the
specular base clamped below at zero, max(0, V.R)^shininess, as the claim
asserts. -/
def lightTermClamped (s : Scene) (mat : Material) (nrm : Vec3 → Vec3)
    (p n v reflColor : Vec3) (light : Light) : Vec3 :=
  if 0 < (nrm (light.origin - p)).dot n
      ∧ s.hits_any ⟨p, nrm (light.origin - p)⟩ = false then
    mat.k_reflective * reflColor
      + mat.k_diffuse * ((nrm (light.origin - p)).dot n) * light.diffuse_color
      + mat.k_specular
          * powfNat
              (Max.max 0
                (v.dot (((2 : ℚ) * (n.dot (nrm (light.origin - p)))) * n
                  - nrm (light.origin - p))))
              mat.shininess
        * light.specular_color
  else mat.k_reflective * reflColor

/-- Modelled from the spec's words: Scene::ray_color with the clamped
specular term, the behaviour claim C4 attributes to the code. -/
def Scene.ray_color_clamped (nrm : Vec3 → Vec3) (s : Scene) (ray : Ray) :
    ℕ → Vec3
  | 0 => 0
  | depth + 1 =>
    match s.best_hit ray with
    | none => 0
    | some (t, surface) =>
      let color := (0 : Vec3) + s.global_light * surface.material.k_ambient
      let h := surface.hit ray t
      let p := h.pos
      let n := h.surface_normal
      let v := nrm (s.camera - p)
      let view_reflection := (2 : ℚ) * (n.dot v * n) - v
      let reflColor := s.ray_color_clamped nrm ⟨p, view_reflection⟩ depth
      s.lights.foldl
        (fun c light =>
          c + lightTermClamped s surface.material nrm p n v reflColor light)
        color

/-- A material whose numeric content is irrelevant to the BVH claims. -/
def mat0 : Material := ⟨0, 0, 0, 0, 20⟩

/-- Triangle in the plane z = 10; the concrete ray hits it at t = 10. -/
def triA : CanHit := .triangle ⟨⟨-2, -2, 10⟩, ⟨0, 2, 10⟩, ⟨1, -2, 10⟩, 0, mat0⟩

/-- Triangle in the plane z = 2; the concrete ray hits it at t = 2. -/
def triB : CanHit := .triangle ⟨⟨-2, -2, 2⟩, ⟨0, 2, 2⟩, ⟨2, -2, 2⟩, 0, mat0⟩

/-- Triangle in the plane z = 5; the concrete ray hits it at t = 5. -/
def triC : CanHit := .triangle ⟨⟨-2, -2, 5⟩, ⟨0, 2, 5⟩, ⟨6, -2, 5⟩, 0, mat0⟩

/-- A three-primitive scene; sorting by x-midpoint orders it [triA, triB,
triC], so the built tree has leaves [triA] and [triB, triC]. -/
def scene3 : List CanHit := [triB, triC, triA]

/-- Stand-in for f32 sqrt where its value is irrelevant (triangle-only
scenes never call it). -/
def sq0 : ℚ → ℚ := fun _ => 0

/-- A ray from the origin with every direction component nonzero, hitting
triA, triB and triC at t = 10, 2 and 5 respectively. -/
def cray : Ray := ⟨0, ⟨1/64, 1/64, 1⟩⟩

/-- The BVH that BVH::new builds from scene3 (proved in new_scene3): one
internal root over a singleton left leaf [triA] and a right leaf
[triB, triC]; every bounding box contains the origin because the union fold
starts from AABB::zero. -/
def bvh3 : BVH :=
  ⟨BVHNode.internal
    (BVHNode.leaf 0 1 ⟨⟨-2, -2, 0⟩, ⟨1, 2, 10⟩⟩)
    (BVHNode.leaf 1 2 ⟨⟨-2, -2, 0⟩, ⟨6, 2, 5⟩⟩)
    ⟨⟨-2, -2, 0⟩, ⟨6, 2, 10⟩⟩,
   [triA, triB, triC]⟩

/-- f32 sqrt model agreeing with IEEE sqrt on the one perfect square the
concrete sphere witness reaches (sqrt 1 = 1). -/
def sq1 : ℚ → ℚ := fun _ => 1

/-- Sphere of radius 1 centred three units down the z axis. -/
def sph1 : Sphere := ⟨⟨0, 0, 3⟩, 1, mat0⟩

/-- Axis-aligned unit ray pointing at sph1: discriminant 1, root_one 2. -/
def zray : Ray := ⟨0, ⟨0, 0, 1⟩⟩

/-- Material isolating the specular term: k_specular 1, everything else 0,
shininess the even integer 2. -/
def matCex : Material := ⟨0, 0, ⟨1, 1, 1⟩, 0, 2⟩

/-- A geometry whose hit record puts p at the origin with normal +y. -/
def geomCex : Geom := ⟨matCex, fun _ _ => ⟨0, ⟨0, 1, 0⟩⟩⟩

/-- A light straight above p; light.origin - p = (0,1,0) is exactly unit, so
the identity is the exact value of normalize on it. -/
def lightCex : Light := ⟨⟨0, 1, 0⟩, ⟨1, 1, 1⟩, ⟨1, 1, 1⟩⟩

/-- Scene whose one hit faces the light with no occluder but whose view
direction makes V.R = -1: camera - p = (0,-1,0) is exactly unit. -/
def sceneCex : Scene :=
  ⟨fun _ => some (2, geomCex), fun _ => false, [lightCex], 0, ⟨0, -1, 0⟩⟩

/-- An arbitrary primary ray for the integrator counterexample. -/
def iray : Ray := ⟨0, ⟨1, 1, 1⟩⟩

/-- A box strictly inside the positive octant, away from the origin. -/
def posBox : AABB := ⟨⟨1, 1, 1⟩, ⟨2, 2, 2⟩⟩

/-- A box whose y extent (2) strictly exceeds its x and z extents (1). -/
def tallBox : AABB := ⟨⟨0, 0, 0⟩, ⟨1, 2, 1⟩⟩

theorem Vec3.zero_def : (0 : Vec3) = ⟨0, 0, 0⟩ := rfl

theorem Vec3.zero_x : (0 : Vec3).x = 0 := rfl

theorem Vec3.zero_y : (0 : Vec3).y = 0 := rfl

theorem Vec3.zero_z : (0 : Vec3).z = 0 := rfl

theorem Vec3.add_def (a b : Vec3) : a + b = ⟨a.x + b.x, a.y + b.y, a.z + b.z⟩ := rfl

theorem Vec3.sub_def (a b : Vec3) : a - b = ⟨a.x - b.x, a.y - b.y, a.z - b.z⟩ := rfl

theorem Vec3.mul_def (a b : Vec3) : a * b = ⟨a.x * b.x, a.y * b.y, a.z * b.z⟩ := rfl

theorem Vec3.div_def (a b : Vec3) : a / b = ⟨a.x / b.x, a.y / b.y, a.z / b.z⟩ := rfl

theorem Vec3.smul_def (q : ℚ) (v : Vec3) : q * v = ⟨q * v.x, q * v.y, q * v.z⟩ := rfl

theorem Vec3.muls_def (v : Vec3) (q : ℚ) : v * q = ⟨v.x * q, v.y * q, v.z * q⟩ := rfl

/-- Because the running maximum starts at plus infinity, no axis extent ever
beats it and the initial index 0 is always returned. -/
theorem max_axis_eq_zero (b : AABB) : AABB.max_axis b = 0 := by
  simp [AABB.max_axis, List.foldl, not_top_lt]

/-- BVH::new_recur on a range of length at most 2 emits a single leaf and
leaves the range unpermuted. -/
theorem new_recur_leaf (l : List CanHit) (i : ℕ) (h : l.length ≤ 2) :
    BVH.new_recur l i =
      (BVHNode.leaf i l.length
        (l.foldl (fun b s => b.union_mut s.aabb) AABB.zero), l) := by
  rw [BVH.new_recur]
  simp [h]

theorem chainFrom_append {xs ys : List (ℕ × ℕ)} {s m e : ℕ}
    (hx : chainFrom s xs m = true) (hy : chainFrom m ys e = true) :
    chainFrom s (xs ++ ys) e = true := by
  induction xs generalizing s with
  | nil =>
    simp only [chainFrom, beq_iff_eq] at hx
    simpa [hx] using hy
  | cons r xs ih =>
    obtain ⟨beg, length⟩ := r
    simp only [chainFrom, Bool.and_eq_true, beq_iff_eq] at hx ⊢
    exact ⟨hx.1, ih hx.2⟩

theorem chainFrom_le {rgs : List (ℕ × ℕ)} :
    ∀ {s e : ℕ}, chainFrom s rgs e = true → s ≤ e := by
  induction rgs with
  | nil =>
    intro s e h
    simp only [chainFrom, beq_iff_eq] at h
    omega
  | cons r rest ih =>
    intro s e h
    obtain ⟨beg, length⟩ := r
    simp only [chainFrom, Bool.and_eq_true, beq_iff_eq] at h
    have := ih h.2
    omega

theorem chainFrom_lower {rgs : List (ℕ × ℕ)} :
    ∀ {s e : ℕ}, chainFrom s rgs e = true → ∀ r ∈ rgs, s ≤ r.1 := by
  induction rgs with
  | nil => intro s e _ r hr; cases hr
  | cons q rest ih =>
    intro s e h r hr
    obtain ⟨beg, length⟩ := q
    simp only [chainFrom, Bool.and_eq_true, beq_iff_eq] at h
    rcases List.mem_cons.mp hr with rfl | hr
    · omega
    · have := ih h.2 r hr
      omega

theorem chainFrom_pairwise {rgs : List (ℕ × ℕ)} :
    ∀ {s e : ℕ}, chainFrom s rgs e = true →
      rgs.Pairwise (fun r1 r2 => r1.1 + r1.2 ≤ r2.1) := by
  induction rgs with
  | nil => intro s e _; exact List.Pairwise.nil
  | cons q rest ih =>
    intro s e h
    obtain ⟨beg, length⟩ := q
    simp only [chainFrom, Bool.and_eq_true, beq_iff_eq] at h
    refine List.Pairwise.cons ?_ (ih h.2)
    intro r hr
    have := chainFrom_lower h.2 r hr
    simp only []
    omega

theorem chainFrom_elems {rgs : List (ℕ × ℕ)} :
    ∀ {s e : ℕ}, chainFrom s rgs e = true →
      rangesElems rgs = List.range' s (e - s) := by
  induction rgs with
  | nil =>
    intro s e h
    simp only [chainFrom, beq_iff_eq] at h
    simp [rangesElems, h]
  | cons q rest ih =>
    intro s e h
    obtain ⟨beg, length⟩ := q
    simp only [chainFrom, Bool.and_eq_true, beq_iff_eq] at h
    have hrest := ih h.2
    have hle : s + length ≤ e := chainFrom_le h.2
    simp only [rangesElems, List.foldr_cons] at hrest ⊢
    rw [hrest, h.1, List.range'_append_1]
    congr 1
    omega

/-- Master invariant of BVH::new_recur: the leaf ranges of the subtree built
from a slice at offset i tile [i, i + length) consecutively, every leaf
holds at most 2 primitives, and the permuted slice keeps its length. -/
theorem new_recur_master :
    ∀ (n : ℕ) (s : List CanHit) (i : ℕ), s.length ≤ n →
      chainFrom i (BVH.new_recur s i).1.leafRanges (i + s.length) = true ∧
      (∀ r ∈ (BVH.new_recur s i).1.leafRanges, r.2 ≤ 2) ∧
      (BVH.new_recur s i).2.length = s.length := by
  intro n
  induction n with
  | zero =>
    intro s i hn
    have h2 : s.length ≤ 2 := by omega
    rw [new_recur_leaf s i h2]
    simp [BVHNode.leafRanges, chainFrom, h2]
  | succ n ih =>
    intro s i hn
    by_cases h2 : s.length ≤ 2
    · rw [new_recur_leaf s i h2]
      simp [BVHNode.leafRanges, chainFrom, h2]
    · rw [BVH.new_recur]
      simp only [dif_neg h2]
      have hsl : (sortBy (fun a b =>
          decide (midKey ((s.foldl (fun b t => b.union_mut t.aabb)
            AABB.zero).max_axis) a ≤ midKey ((s.foldl (fun b t =>
              b.union_mut t.aabb) AABB.zero).max_axis) b)) s).length
          = s.length := length_sortBy _ s
      set sorted := sortBy (fun a b =>
        decide (midKey ((s.foldl (fun b t => b.union_mut t.aabb)
          AABB.zero).max_axis) a ≤ midKey ((s.foldl (fun b t =>
            b.union_mut t.aabb) AABB.zero).max_axis) b)) s with hsorted
      have hlt : (sorted.take (sorted.length / 2)).length = s.length / 2 := by
        simp [List.length_take, hsl]
        omega
      have hld : (sorted.drop (sorted.length / 2)).length
          = s.length - s.length / 2 := by
        simp [List.length_drop, hsl]
      obtain ⟨ihl1, ihl2, ihl3⟩ :=
        ih (sorted.take (sorted.length / 2)) i (by omega)
      obtain ⟨ihr1, ihr2, ihr3⟩ :=
        ih (sorted.drop (sorted.length / 2))
          (i + (sorted.take (sorted.length / 2)).length) (by omega)
      refine ⟨?_, ?_, ?_⟩
      · simp only [BVHNode.leafRanges]
        have hend : (i + (sorted.take (sorted.length / 2)).length)
            + (sorted.drop (sorted.length / 2)).length = i + s.length := by
          rw [hlt, hld]
          omega
        rw [hend] at ihr1
        exact chainFrom_append ihl1 ihr1
      · simp only [BVHNode.leafRanges]
        intro r hr
        rcases List.mem_append.mp hr with hr | hr
        · exact ihl2 r hr
        · exact ihr2 r hr
      · simp only [List.length_append, ihl3, ihr3]
        omega

theorem foldl_keepMin_isSome (sqrtf : ℚ → ℚ) (ray : Ray) (l : List CanHit)
    (acc : Option (ℚ × CanHit)) :
    (l.foldl (keepMin sqrtf ray) acc).isSome
      = (acc.isSome || l.any fun s => (s.ray_intersect sqrtf ray).isSome) := by
  induction l generalizing acc with
  | nil => simp
  | cons s l ih =>
    rw [List.foldl_cons, ih, List.any_cons]
    cases hs : s.ray_intersect sqrtf ray with
    | none => simp [keepMin, hs]
    | some v =>
      obtain ⟨t, geom⟩ := v
      cases acc with
      | none => simp [keepMin, hs]
      | some w =>
        obtain ⟨pt, pg⟩ := w
        simp only [keepMin, hs]
        split <;> simp

/-- The two traversals prune on exactly the same bounding tests, and a leaf
scan produces a hit exactly when some primitive in its range intersects, so
hits_any_walk is the isSome image of ray_intersect_walk on every node. -/
theorem hits_any_walk_eq_isSome (sqrtf : ℚ → ℚ) (surfaces : List CanHit)
    (ray : Ray) (node : BVHNode) :
    BVH.hits_any_walk sqrtf surfaces ray node
      = (BVH.ray_intersect_walk sqrtf surfaces ray node).isSome := by
  induction node with
  | leaf beg length bounding =>
    rw [BVH.hits_any_walk, BVH.ray_intersect_walk]
    by_cases hb : bounding.ray_hit ray
    · simp [hb, foldl_keepMin_isSome, CanHit.hits_any]
    · simp [hb]
  | internal left right bounding ihl ihr =>
    rw [BVH.hits_any_walk, BVH.ray_intersect_walk]
    by_cases hb : bounding.ray_hit ray
    · simp only [hb, Bool.not_true, Bool.false_eq_true, if_false, ihl, ihr]
      cases BVH.ray_intersect_walk sqrtf surfaces ray left <;> simp
    · simp [hb]

/-- Concrete evaluation of the builder on scene3: sorting by x-midpoint
orders the primitives [triA, triB, triC], the split at 3/2 = 1 puts triA in
the left leaf and triB, triC in the right leaf. -/
theorem new_recur_scene3 :
    BVH.new_recur scene3 0 = (bvh3.root, bvh3.surfaces) := by
  have h3 : ¬((scene3 : List CanHit).length ≤ 2) := by decide
  have hsort : sortBy (fun a b => decide (midKey 0 a ≤ midKey 0 b)) scene3
      = [triA, triB, triC] := by
    norm_num [sortBy, insertBy, scene3, midKey, triA, triB, triC, CanHit.aabb,
      Triangle.aabb, AABB.midpoint, Vec3.comp, Vec3.min, Vec3.max, min_def,
      max_def, Vec3.add_def, Vec3.muls_def]
  rw [BVH.new_recur]
  simp only [dif_neg h3, max_axis_eq_zero, hsort]
  have htake : List.take (([triA, triB, triC] : List CanHit).length / 2)
      [triA, triB, triC] = [triA] := rfl
  have hdrop : List.drop (([triA, triB, triC] : List CanHit).length / 2)
      [triA, triB, triC] = [triB, triC] := rfl
  rw [htake, hdrop, new_recur_leaf [triA] 0 (by decide),
    new_recur_leaf [triB, triC] (0 + ([triA] : List CanHit).length) (by decide)]
  norm_num [bvh3, triA, triB, triC, CanHit.aabb, Triangle.aabb, scene3,
    AABB.union_mut, AABB.zero, Vec3.min, Vec3.max, min_def, max_def,
    Vec3.zero_x, Vec3.zero_y, Vec3.zero_z]

/-- BVH::new succeeds on scene3 and returns bvh3. -/
theorem new_scene3 : BVH.new scene3 = some bvh3 := by
  simp only [BVH.new, new_recur_scene3, bvh3]

/-- C2 counterexample: on the empty primitive collection the recursive
builder emits a Leaf root, so BVH::new reaches its panic branch (modelled as
none — the source's return type has no error channel, so the panic is its
only non-value outcome).  This refutes the claim that empty construction
fails with a checked error and never panics. -/
theorem c2_empty_build_reaches_panic : BVH.new ([] : List CanHit) = none := by
  simp only [BVH.new, new_recur_leaf ([] : List CanHit) 0 (by decide)]

/-- C2 amended: BVH::new on the empty collection performs no out-of-bounds
access — new_recur cleanly emits the empty leaf Leaf{begin 0, length 0,
bounding zero()} — but BVH::new then rejects the Leaf root by panicking with
"bvh construction failed" (none) instead of returning a checked error. -/
theorem c2_empty_build_behaviour :
    BVH.new ([] : List CanHit) = none ∧
      BVH.new_recur ([] : List CanHit) 0 = (BVHNode.leaf 0 0 AABB.zero, []) := by
  have h := new_recur_leaf ([] : List CanHit) 0 (by decide)
  exact ⟨by simp only [BVH.new, h], h⟩

/-- C3: the claim says max_axis returns the axis of greatest extent with
ties to the lowest index; in fact the accumulator starts at -NEG_INFINITY =
plus infinity, so no axis ever wins the strict comparison and the result is
always 0.  On tallBox (extents 1, 2, 1) the claim requires 1; the code
returns 0 — and it returns 0 for every box. -/
theorem c3_max_axis_always_zero :
    AABB.max_axis tallBox = 0 ∧ ∀ b : AABB, AABB.max_axis b = 0 :=
  ⟨max_axis_eq_zero tallBox, max_axis_eq_zero⟩

/-- C5 counterexample: zero() is not an identity for union_mut — uniting it
with the box [1,2]^3 drags the min corner to the origin, so the result is
not equal to the box. -/
theorem c5_zero_not_union_identity :
    AABB.union_mut AABB.zero posBox ≠ posBox := by
  norm_num [AABB.union_mut, AABB.zero, posBox, Vec3.min, Vec3.max, min_def,
    max_def, Vec3.zero_x, Vec3.zero_y, Vec3.zero_z, AABB.mk.injEq,
    Vec3.mk.injEq]

/-- C5 amended: union_mut(zero(), b) is the componentwise min/max of b
against the origin box, which equals b exactly when b.min ≤ 0 ≤ b.max
componentwise; a fold started from zero() therefore yields the union of the
collection enlarged to contain the origin, not the bare union. -/
theorem c5_union_zero_characterization (b : AABB) :
    AABB.union_mut AABB.zero b = ⟨Vec3.min 0 b.min, Vec3.max 0 b.max⟩ ∧
      (AABB.union_mut AABB.zero b = b ↔ Vec3.le b.min 0 ∧ Vec3.le 0 b.max) := by
  obtain ⟨⟨ax, ay, az⟩, ⟨cx, cy, cz⟩⟩ := b
  refine ⟨rfl, ?_⟩
  simp only [AABB.union_mut, AABB.zero, Vec3.min, Vec3.max, Vec3.le,
    Vec3.zero_x, Vec3.zero_y, Vec3.zero_z, AABB.mk.injEq, Vec3.mk.injEq]
  constructor
  · rintro ⟨⟨h1, h2, h3⟩, h4, h5, h6⟩
    exact ⟨⟨min_eq_right_iff.mp h1, min_eq_right_iff.mp h2,
      min_eq_right_iff.mp h3⟩, max_eq_right_iff.mp h4,
      max_eq_right_iff.mp h5, max_eq_right_iff.mp h6⟩
  · rintro ⟨⟨h1, h2, h3⟩, h4, h5, h6⟩
    exact ⟨⟨min_eq_right h1, min_eq_right h2, min_eq_right h3⟩,
      max_eq_right h4, max_eq_right h5, max_eq_right h6⟩

/-- Witness for C5's amended statement at the concrete box posBox. -/
theorem c5_union_zero_witness :
    AABB.union_mut AABB.zero posBox
      = ⟨Vec3.min 0 posBox.min, Vec3.max 0 posBox.max⟩ :=
  (c5_union_zero_characterization posBox).1

/-- C7: BVH::new panics (returns none in this model) on every collection of
fewer than three primitives, because new_recur emits a Leaf root for any
range of length at most 2 and the constructor accepts only an Internal
root. -/
theorem c7_small_build_panics (surfaces : List CanHit)
    (h : surfaces.length < 3) : BVH.new surfaces = none := by
  simp only [BVH.new, new_recur_leaf surfaces 0 (by omega)]

/-- Witness for C7 at a valid two-primitive collection. -/
theorem c7_small_build_witness :
    (([triA, triB] : List CanHit).length < 3) ∧
      BVH.new [triA, triB] = none :=
  ⟨by decide, c7_small_build_panics [triA, triB] (by decide)⟩

/-- C9: ray_color at depth 0 is exactly the zero colour for every scene —
including every choice of the scene's intersection oracles, which shows no
intersection query influences the result — and for every normalize model
and every ray; the base case returns before any query or recursion. -/
theorem c9_ray_color_depth_zero (nrm : Vec3 → Vec3) (s : Scene) (ray : Ray) :
    Scene.ray_color nrm s ray 0 = 0 := rfl

/-- C10: Sphere::ray_intersect returns none when the discriminant is
negative; otherwise it returns root_one if root_one > 1, else root_two if
root_two > 1, else none; every returned t is strictly greater than 1; and
root_one is the smaller root whenever a > 0 and the sqrt value is
nonnegative.  Holds for every model of f32 sqrt. -/
theorem c10_sphere_intersect_roots (sqrtf : ℚ → ℚ) (s : Sphere) (ray : Ray) :
    (s.discriminant ray < 0 → s.ray_intersect sqrtf ray = none) ∧
    (∀ t, s.ray_intersect sqrtf ray = some t → 1 < t) ∧
    (¬s.discriminant ray < 0 → 1 < s.root_one sqrtf ray →
      s.ray_intersect sqrtf ray = some (s.root_one sqrtf ray)) ∧
    (¬s.discriminant ray < 0 → ¬1 < s.root_one sqrtf ray →
      1 < s.root_two sqrtf ray →
      s.ray_intersect sqrtf ray = some (s.root_two sqrtf ray)) ∧
    (¬s.discriminant ray < 0 → ¬1 < s.root_one sqrtf ray →
      ¬1 < s.root_two sqrtf ray → s.ray_intersect sqrtf ray = none) ∧
    (0 < Sphere.qa ray → 0 ≤ sqrtf (s.discriminant ray) →
      s.root_one sqrtf ray ≤ s.root_two sqrtf ray) := by
  refine ⟨?_, ?_, ?_, ?_, ?_, ?_⟩
  · intro h
    simp [Sphere.ray_intersect, h]
  · intro t ht
    by_cases hd : s.discriminant ray < 0
    · simp [Sphere.ray_intersect, hd] at ht
    · by_cases h1 : s.root_one sqrtf ray > 1
      · simp [Sphere.ray_intersect, hd, h1] at ht
        exact ht ▸ h1
      · by_cases h2 : s.root_two sqrtf ray > 1
        · simp [Sphere.ray_intersect, hd, h1, h2] at ht
          exact ht ▸ h2
        · simp [Sphere.ray_intersect, hd, h1, h2] at ht
  · intro hd h1
    simp [Sphere.ray_intersect, hd, h1]
  · intro hd h1 h2
    simp [Sphere.ray_intersect, hd, h1, h2]
  · intro hd h1 h2
    simp [Sphere.ray_intersect, hd, h1, h2]
  · intro ha hs
    unfold Sphere.root_one Sphere.root_two
    rw [div_le_div_iff_of_pos_right ha]
    linarith

/-- Witness for C10: the unit sphere at (0,0,3) and the unit z ray give
discriminant 1, root_one 2, and a returned t = 2 > 1. -/
theorem c10_sphere_intersect_witness :
    Sphere.ray_intersect sq1 sph1 zray = some 2 ∧ (1 : ℚ) < 2 := by
  have heval : Sphere.ray_intersect sq1 sph1 zray = some 2 := by
    norm_num [Sphere.ray_intersect, Sphere.root_one, Sphere.root_two,
      Sphere.discriminant, Sphere.half_b, Sphere.qa, Sphere.qc, sq1, sph1,
      zray, Vec3.dot, Vec3.length_squared, Vec3.sub_def, Vec3.zero_x,
      Vec3.zero_y, Vec3.zero_z]
  exact ⟨heval,
    (c10_sphere_intersect_roots sq1 sph1 zray).2.1 2 heval⟩

/-- C1 is false on the code: ray_intersect_walk combines the children of an
Internal node with or_else, so it returns the left subtree's hit whenever
one exists and never examines the right subtree — it is not the global
minimum over all leaves and does not always explore both children whose
boxes the ray hits.  Concretely, on the built BVH of scene3 the ray cray
hits the left leaf's triangle triA at t = 10 and the right leaf's triangle
triB at t = 2; the traversal returns (10, triA) while the brute-force
minimum scan returns (2, triB). -/
theorem c1_ray_intersect_not_global_min :
    BVH.new scene3 = some bvh3 ∧
      bvh3.ray_intersect sq0 cray = some (10, triA) ∧
      bruteForceIntersect sq0 scene3 cray = some (2, triB) := by
  refine ⟨new_scene3, ?_, ?_⟩
  · norm_num [BVH.ray_intersect, BVH.ray_intersect_walk, bvh3, keepMin,
      CanHit.ray_intersect, Triangle.ray_intersect, triA, triB, triC, cray,
      sq0, AABB.ray_hit, Vec3.min, Vec3.max, Vec3.max_element,
      Vec3.min_element, Vec3.dot, Vec3.cross, Vec3.sub_def, Vec3.div_def,
      min_def, max_def, Vec3.zero_x, Vec3.zero_y, Vec3.zero_z, EPSILON,
      Prod.mk.injEq, Option.map, List.foldl_cons, List.foldl_nil]
  · norm_num [bruteForceIntersect, scene3, keepMin, CanHit.ray_intersect,
      Triangle.ray_intersect, triA, triB, triC, cray, sq0, Vec3.dot,
      Vec3.cross, Vec3.sub_def, min_def, max_def, Vec3.zero_x, Vec3.zero_y,
      Vec3.zero_z, EPSILON, Prod.mk.injEq, Option.map, List.foldl_cons,
      List.foldl_nil]

/-- C6: for every built BVH and every ray, hits_any is true exactly when
ray_intersect returns a hit; both traversals prune on the same box tests and
CanHit::hits_any is defined as ray_intersect(ray).is_some().  Holds for
every model of f32 sqrt. -/
theorem c6_hits_any_iff_hit_exists (sqrtf : ℚ → ℚ) (surfaces : List CanHit)
    (b : BVH) (_h : BVH.new surfaces = some b) (ray : Ray) :
    b.hits_any sqrtf ray = (b.ray_intersect sqrtf ray).isSome := by
  rw [BVH.hits_any, BVH.ray_intersect, hits_any_walk_eq_isSome]

/-- Witness for C6 on the concrete built BVH bvh3 and the concrete ray. -/
theorem c6_hits_any_witness :
    bvh3.hits_any sq0 cray = (bvh3.ray_intersect sq0 cray).isSome :=
  c6_hits_any_iff_hit_exists sq0 scene3 bvh3 new_scene3 cray

/-- C8: in every successfully built tree each leaf holds at most 2
primitives, the leaf ranges are pairwise disjoint (each ends before the next
begins), and their concatenation in traversal order is exactly the index
list [0, ..., primitive_count - 1] — no gaps, no overlaps. -/
theorem c8_leaf_ranges_partition (surfaces : List CanHit) (b : BVH)
    (h : BVH.new surfaces = some b) :
    (∀ r ∈ b.root.leafRanges, r.2 ≤ 2) ∧
      b.root.leafRanges.Pairwise (fun r1 r2 => r1.1 + r1.2 ≤ r2.1) ∧
      rangesElems b.root.leafRanges = List.range b.surfaces.length := by
  obtain ⟨hchain, hle2, hperm⟩ :=
    new_recur_master surfaces.length surfaces 0 (le_refl _)
  have hb : b.root = (BVH.new_recur surfaces 0).1 ∧
      b.surfaces = (BVH.new_recur surfaces 0).2 := by
    rw [BVH.new] at h
    rcases hnr : BVH.new_recur surfaces 0 with ⟨node, perm⟩
    rw [hnr] at h
    cases node with
    | leaf beg length bounding => simp at h
    | internal left right bounding =>
      simp only [Option.some.injEq] at h
      rw [← h]
      simp
  rw [hb.1, hb.2, hperm]
  refine ⟨hle2, chainFrom_pairwise hchain, ?_⟩
  have := chainFrom_elems hchain
  rw [this]
  rw [List.range_eq_range']
  congr 1
  omega

/-- Witness for C8 on the concrete built BVH bvh3. -/
theorem c8_leaf_ranges_witness :
    BVH.new scene3 = some bvh3 ∧
      rangesElems bvh3.root.leafRanges = List.range bvh3.surfaces.length :=
  ⟨new_scene3, (c8_leaf_ranges_partition scene3 bvh3 new_scene3).2.2⟩

/-- C4 is false on the code: the source computes
v.dot(lr).powf(shininess) with no clamping, so when V.R < 0 and shininess is
even the specular contribution is positive where the claimed
max(0, V.R)^shininess formula gives zero.  In sceneCex the one light faces
the hit (N.L_v = 1 > 0), the shadow oracle reports no occluder, V.R = -1 and
shininess = 2, so ray_color returns (1,1,1) while the clamped variant
returns (0,0,0). -/
theorem c4_specular_not_clamped :
    Scene.ray_color id sceneCex iray 1
      ≠ Scene.ray_color_clamped id sceneCex iray 1 := by
  norm_num [Scene.ray_color, Scene.ray_color_clamped, sceneCex, geomCex,
    matCex, lightCex, iray, lightTerm, lightTermClamped, powfNat, Vec3.dot,
    Vec3.sub_def, Vec3.add_def, Vec3.mul_def, Vec3.smul_def, Vec3.muls_def,
    min_def, max_def, Vec3.zero_x, Vec3.zero_y, Vec3.zero_z, Vec3.zero_def,
    List.foldl_cons, List.foldl_nil, Vec3.mk.injEq]

/-- C4 amended: when the surface faces the light (N.L_v > 0) and the shadow
ray reports no occluder, the contribution added for that light is the
reflective term plus diffuse plus the specular term
k_specular * (V.R)^shininess * light.specular_color, with V.R fed to the
power unclamped (a negative V.R is exponentiated directly). -/
theorem c4_specular_unclamped_formula (s : Scene) (mat : Material)
    (nrm : Vec3 → Vec3) (p n v reflColor : Vec3) (light : Light)
    (hface : 0 < (nrm (light.origin - p)).dot n)
    (hshadow : s.hits_any ⟨p, nrm (light.origin - p)⟩ = false) :
    lightTerm s mat nrm p n v reflColor light =
      mat.k_reflective * reflColor
        + mat.k_diffuse * ((nrm (light.origin - p)).dot n)
            * light.diffuse_color
        + mat.k_specular
            * powfNat
                (v.dot (((2 : ℚ) * (n.dot (nrm (light.origin - p)))) * n
                  - nrm (light.origin - p)))
                mat.shininess
          * light.specular_color := by
  unfold lightTerm
  exact if_pos ⟨hface, hshadow⟩

/-- Witness for C4's amended statement at the concrete scene, where the
unclamped specular factor is (-1)^2 = 1 and the added colour is (1,1,1). -/
theorem c4_specular_unclamped_witness :
    lightTerm sceneCex matCex id 0 ⟨0, 1, 0⟩ ⟨0, -1, 0⟩ 0 lightCex =
      matCex.k_reflective * (0 : Vec3)
        + matCex.k_diffuse * ((id (lightCex.origin - 0) : Vec3).dot ⟨0, 1, 0⟩)
            * lightCex.diffuse_color
        + matCex.k_specular
            * powfNat
                ((Vec3.dot ⟨0, -1, 0⟩
                  (((2 : ℚ) * (Vec3.dot ⟨0, 1, 0⟩ (id (lightCex.origin - 0))))
                      * (⟨0, 1, 0⟩ : Vec3)
                    - id (lightCex.origin - 0))))
                matCex.shininess
          * lightCex.specular_color :=
  c4_specular_unclamped_formula sceneCex matCex id 0 ⟨0, 1, 0⟩ ⟨0, -1, 0⟩ 0
    lightCex
    (by norm_num [lightCex, Vec3.dot, Vec3.sub_def, Vec3.zero_x, Vec3.zero_y,
      Vec3.zero_z])
    rfl

end TraceRS
